import Mathlib

/-!
Shallow embedding of the proptest generation/shrinking engine core, covering
the `Filter` adaptor (src/strategy/filter.rs), the `Flatten` adaptor
(src/strategy/flatten.rs), the optional-failure `maybe_ok`/`maybe_err`
wrappers (src/result.rs), and the regex literal compilation arms
(src/string.rs).

A `ValueTree` (a mutable, stateful candidate) is modelled as a state type
`σ` together with a record of its three protocol operations; Rust in-place
mutation becomes explicit state passing, so `simplify`/`complicate` return
the success flag paired with the successor state (the state is threaded
even when the flag is `false`, mirroring `&mut self`).
-/

namespace Proptest

/-- Protocol of a `ValueTree` (src/strategy/traits.rs boundary): `current`
reads the value, `simplify`/`complicate` attempt a step and report success,
mutating the state in place (here: returning the successor state). -/
structure RawVT (σ α : Type) where
  current : σ → α
  simplify : σ → Bool × σ
  complicate : σ → Bool × σ

/-- Outcome of `Filter::new_value` (src/strategy/filter.rs:50-64): a
successful draw, a propagated source failure (the `?` on
`self.source.new_value(runner)`), or local-reject-budget exhaustion
(the `Err` escaping from `runner.reject_local`). -/
inductive NVRes (σ : Type) where
  | ok (s : σ)
  | sourceErr
  | tooManyRejects
deriving DecidableEq, Repr

/-- Embedding of `Filter::new_value` (src/strategy/filter.rs:50-64): loop
drawing from the source (`draws i` is the i-th source draw, `none` when the
source draw itself fails); a draw failing the predicate consumes one unit of
the local reject budget via `reject_local`; `reject_local` itself is not
under src/ and is modelled from the spec: each rejection consumes one unit
of the local reject budget and exhausting it fails the draw, so a failing
draw with no budget left returns the too-many-rejects error. -/
def filterNewValue (vt : RawVT σ α) (p : α → Bool) (draws : Nat → Option σ) :
    Nat → Nat → NVRes σ
  | budget, i =>
    match draws i with
    | none => .sourceErr
    | some v =>
      if p (vt.current v) then .ok v
      else
        match budget with
        | 0 => .tooManyRejects
        | b + 1 => filterNewValue vt p draws b (i + 1)

/-- Outcome of `Filter::ensure_acceptable` (src/strategy/filter.rs:67-77):
the repaired state, the panic when the source cannot complicate back into an
acceptable value, or exhaustion of the artificial loop fuel (the Rust loop
is an unbounded `while`; fuel only truncates the model, it exposes no
value). -/
inductive EnsureRes (σ : Type) where
  | done (s : σ)
  | fatal
  | fuelOut
deriving DecidableEq, Repr

/-- Embedding of `Filter::ensure_acceptable` (src/strategy/filter.rs:67-77):
while the current value fails the predicate, call the source `complicate`;
if it reports failure, panic (modelled as `.fatal`). -/
def ensure_acceptable (vt : RawVT σ α) (p : α → Bool) : Nat → σ → EnsureRes σ
  | 0, s => if p (vt.current s) then .done s else .fuelOut
  | fuel + 1, s =>
    if p (vt.current s) then .done s
    else
      match vt.complicate s with
      | (true, s2) => ensure_acceptable vt p fuel s2
      | (false, _) => .fatal

/-- Outcome of one `Filter` simplify/complicate call: a normal protocol step
with its boolean result, the `ensure_acceptable` panic, or model fuel
exhaustion. -/
inductive FRes (σ : Type) where
  | step (b : Bool) (s : σ)
  | fatal
  | fuelOut
deriving DecidableEq, Repr

/-- Embedding of `ValueTree::simplify` for `Filter`
(src/strategy/filter.rs:87-94): delegate to the source; on success run the
repair step `ensure_acceptable`; on failure return `false` without repair
(the source reports no change). -/
def filter_simplify (vt : RawVT σ α) (p : α → Bool) (fuel : Nat) (s : σ) :
    FRes σ :=
  match vt.simplify s with
  | (true, s2) =>
    match ensure_acceptable vt p fuel s2 with
    | .done s3 => .step true s3
    | .fatal => .fatal
    | .fuelOut => .fuelOut
  | (false, s2) => .step false s2

/-- Embedding of `ValueTree::complicate` for `Filter`
(src/strategy/filter.rs:96-103): delegate to the source; on success run the
repair step `ensure_acceptable`. -/
def filter_complicate (vt : RawVT σ α) (p : α → Bool) (fuel : Nat) (s : σ) :
    FRes σ :=
  match vt.complicate s with
  | (true, s2) =>
    match ensure_acceptable vt p fuel s2 with
    | .done s3 => .step true s3
    | .fatal => .fatal
    | .fuelOut => .fuelOut
  | (false, s2) => .step false s2

/-- Run a sequence of user-visible `Filter` calls (`true` = simplify,
`false` = complicate) from a state, collecting every state whose `current()`
the user observes after each completed call; the run stops at a panic or at
model fuel exhaustion (no value is exposed there). -/
def runFilterCalls (vt : RawVT σ α) (p : α → Bool) (fuel : Nat) :
    List Bool → σ → List σ
  | [], _ => []
  | c :: cs, s =>
    match (match c with
           | true => filter_simplify vt p fuel s
           | false => filter_complicate vt p fuel s) with
    | .step _ s2 => s2 :: runFilterCalls vt p fuel cs s2
    | _ => []

/-- Iterated source `complicate` state (taking the successor state each
time, whether or not the step succeeded). -/
def compIter (vt : RawVT σ α) : Nat → σ → σ
  | 0, s => s
  | n + 1, s => compIter vt n (vt.complicate s).2

/-- Modelled from the spec: the `Config` options of the run context
(test_runner.rs is not under src/); only the fields the flatten and filter
code reads are carried. -/
structure Config where
  cases : Nat
  max_local_rejects : Nat
  max_flat_map_regens : Nat
deriving DecidableEq, Repr

/-- Modelled from the spec: the `TestRunner` run context (test_runner.rs is
not under src/): it owns the config, the count of flat-map regeneration
attempts already spent against the global `max_flat_map_regens` cap, and the
position in the randomness stream (draws are determinized through it). -/
structure TestRunner where
  config : Config
  flat_map_regens : Nat
  rngPos : Nat
deriving DecidableEq, Repr

/-- Modelled from the spec: `TestRunner::flat_map_regen` succeeds, spending
one unit of the global regeneration budget, while the cap
`max_flat_map_regens` is not exhausted, and otherwise reports `false`
(regeneration-budget exhaustion is a signal, not an error). -/
def TestRunner.flat_map_regen (r : TestRunner) : Bool × TestRunner :=
  if r.flat_map_regens < r.config.max_flat_map_regens
  then (true, { r with flat_map_regens := r.flat_map_regens + 1 })
  else (false, r)

/-- Modelled from the spec: `TestRunner::partial_clone` cheaply duplicates
the run context so a `FlattenValueTree` can carry its own context. -/
def TestRunner.partial_clone (r : TestRunner) : TestRunner := r

/-- A strategy as the flatten code consumes it: its one operation draws a
new candidate state from the run context (`Strategy::new_value`), mutating
the context, and may fail. -/
structure MStrategy (C : Type) where
  new_value : TestRunner → Option C × TestRunner

/-- Embedding of the `FlattenValueTree` state (src/strategy/flatten.rs:44-62):
the meta candidate state `meta`, the current inner candidate state
`current`, the saved final complication, the partial-clone run context, and
the per-candidate regeneration counter. -/
structure FlattenValueTree (M C : Type) where
  meta : M
  current : C
  final_complication : Option C
  runner : TestRunner
  complicate_regen_remaining : Nat
deriving DecidableEq, Repr

/-- Embedding of `FlattenValueTree::new` (src/strategy/flatten.rs:79-87):
draw the initial inner candidate from the meta candidate's current strategy;
the stored runner is a partial clone of the caller's runner after that
draw. -/
def fvtNew (mvt : RawVT M (MStrategy C)) (runner : TestRunner) (meta : M) :
    Option (FlattenValueTree M C) × TestRunner :=
  match (mvt.current meta).new_value runner with
  | (some current, r2) =>
    (some { meta := meta, current := current, final_complication := none,
            runner := r2.partial_clone, complicate_regen_remaining := 0 }, r2)
  | (none, r2) => (none, r2)

/-- Embedding of `FlattenValueTree::current` (src/strategy/flatten.rs:94-96). -/
def fvtCurrent (cvt : RawVT C α) (t : FlattenValueTree M C) : α :=
  cvt.current t.current

/-- Embedding of `FlattenValueTree::simplify` (src/strategy/flatten.rs:98-121).
The regeneration counter is zeroed first; the inner candidate is simplified
in place; failing that the meta candidate is simplified and, on success, a
brand-new inner candidate is drawn from the new meta value (the former inner
candidate moving into `final_complication` via the `mem::swap`, the counter
reset to `config.cases`); a failing draw or a meta that cannot simplify
yields `false`. The inner and meta states are threaded even after failed
steps, mirroring `&mut self`. -/
def fvtSimplify (mvt : RawVT M (MStrategy C)) (cvt : RawVT C α)
    (t : FlattenValueTree M C) : Bool × FlattenValueTree M C :=
  let t0 := { t with complicate_regen_remaining := 0 }
  match cvt.simplify t0.current with
  | (true, c2) => (true, { t0 with current := c2 })
  | (false, c2) =>
    let t1 := { t0 with current := c2 }
    match mvt.simplify t1.meta with
    | (false, m2) => (false, { t1 with meta := m2 })
    | (true, m2) =>
      let t2 := { t1 with meta := m2 }
      match (mvt.current t2.meta).new_value t2.runner with
      | (some v, r2) =>
        (true, { t2 with current := v, final_complication := some c2,
                         runner := r2,
                         complicate_regen_remaining := r2.config.cases })
      | (none, r2) => (false, { t2 with runner := r2 })

/-- Embedding of the part of `FlattenValueTree::complicate` after the
regeneration block (src/strategy/flatten.rs:137-160): complicate the inner
candidate; failing that, complicate the meta candidate and redraw the inner
candidate (resetting the regeneration counter on a successful draw); if the
computed result is `false`, restore a saved final complication when one is
present. -/
def fvtComplicateRest (mvt : RawVT M (MStrategy C)) (cvt : RawVT C α)
    (t : FlattenValueTree M C) : Bool × FlattenValueTree M C :=
  let step :=
    match cvt.complicate t.current with
    | (true, c2) => (true, { t with current := c2 })
    | (false, c2) =>
      let t1 := { t with current := c2 }
      match mvt.complicate t1.meta with
      | (true, m2) =>
        let t2 := { t1 with meta := m2 }
        match (mvt.current t2.meta).new_value t2.runner with
        | (some v, r2) =>
          (true, { t2 with complicate_regen_remaining := r2.config.cases,
                           current := v, runner := r2 })
        | (none, r2) => (false, { t2 with runner := r2 })
      | (false, m2) => (false, { t1 with meta := m2 })
  if step.1 then step
  else
    match step.2.final_complication with
    | some v => (true, { step.2 with current := v, final_complication := none })
    | none => (false, step.2)

/-- Embedding of `FlattenValueTree::complicate` (src/strategy/flatten.rs:123-161).
When the regeneration counter is positive, `flat_map_regen` is consulted: on
success the counter is decremented and a fresh inner candidate is drawn from
the same current meta value (an early `true` return on a successful draw; a
failed draw falls through); on budget exhaustion the counter is zeroed and
control falls through to the structural path `fvtComplicateRest`. -/
def fvtComplicate (mvt : RawVT M (MStrategy C)) (cvt : RawVT C α)
    (t : FlattenValueTree M C) : Bool × FlattenValueTree M C :=
  if t.complicate_regen_remaining > 0 then
    match t.runner.flat_map_regen with
    | (true, r1) =>
      let t1 := { t with
        complicate_regen_remaining := t.complicate_regen_remaining - 1,
        runner := r1 }
      match (mvt.current t1.meta).new_value t1.runner with
      | (some v, r2) => (true, { t1 with current := v, runner := r2 })
      | (none, r2) => fvtComplicateRest mvt cvt { t1 with runner := r2 }
    | (false, r1) =>
      fvtComplicateRest mvt cvt
        { t with complicate_regen_remaining := 0, runner := r1 }
  else fvtComplicateRest mvt cvt t

/-- Modelled from the spec: the `map` combinator over a candidate
(statics::Map is not under src/) applies the captured function to the
underlying current value and delegates both shrinking operations. -/
def mapVT (vt : RawVT σ α) (f : α → β) : RawVT σ β :=
  { current := fun s => f (vt.current s),
    simplify := vt.simplify,
    complicate := vt.complicate }

/-- Modelled from the spec: the state of a two-branch weighted-union
candidate (TupleUnionValueTree is not under src/). `firstOnly` is a
candidate generated on the preferred branch 0; `both` is a candidate
generated on branch 1, holding the branch-1 candidate `s1` together with the
branch-0 candidate `s0` that a branch switch exposes, the flag `onFirst`
telling which branch `current()` reads, and `switchRecent` telling whether
the branch switch is the most recent action (so `complicate` undoes it
first). -/
inductive UnionVT2 (σ0 σ1 : Type) where
  | firstOnly (s0 : σ0)
  | both (s0 : σ0) (s1 : σ1) (onFirst : Bool) (switchRecent : Bool)
deriving DecidableEq, Repr

/-- Modelled from the spec: `current()` of a two-branch union candidate
reads the branch the candidate is currently on. -/
def union_current (vt0 : RawVT σ0 α) (vt1 : RawVT σ1 α) :
    UnionVT2 σ0 σ1 → α
  | .firstOnly s0 => vt0.current s0
  | .both s0 s1 onFirst _ =>
    if onFirst then vt0.current s0 else vt1.current s1

/-- Modelled from the spec: union `simplify()`. On the preferred branch it
delegates into the branch-0 candidate; on branch 1 the first call switches
branches (exposing the branch-0 candidate, keeping the discarded original as
the final-complication fallback) and counts as one successful simplify
step. A successful delegated step makes the switch no longer the most
recent action. -/
def union_simplify (vt0 : RawVT σ0 α) :
    UnionVT2 σ0 σ1 → Bool × UnionVT2 σ0 σ1
  | .firstOnly s0 =>
    match vt0.simplify s0 with
    | (b, s0b) => (b, .firstOnly s0b)
  | .both s0 s1 false _ => (true, .both s0 s1 true true)
  | .both s0 s1 true w =>
    match vt0.simplify s0 with
    | (b, s0b) => (b, .both s0b s1 true (w && !b))

/-- Modelled from the spec: union `complicate()`. It undoes the branch
switch when that is the most recent action (restoring the saved fallback
candidate and branch tag); otherwise it delegates into the current branch's
candidate. -/
def union_complicate (vt0 : RawVT σ0 α) (vt1 : RawVT σ1 α) :
    UnionVT2 σ0 σ1 → Bool × UnionVT2 σ0 σ1
  | .firstOnly s0 =>
    match vt0.complicate s0 with
    | (b, s0b) => (b, .firstOnly s0b)
  | .both s0 s1 true true => (true, .both s0 s1 false false)
  | .both s0 s1 true false =>
    match vt0.complicate s0 with
    | (b, s0b) => (b, .both s0b s1 true false)
  | .both s0 s1 false w =>
    match vt1.complicate s1 with
    | (b, s1b) => (b, .both s0 s1b false w)

/-- Modelled from the spec: denominator of the fixed-point representation of
selection probabilities; a probability p in (0,1) is carried as a numerator
k with 0 < k < weight_den, standing for k / weight_den. -/
def weight_den : Nat := 2 ^ 16

/-- Modelled from the spec: `float_to_weight` (not under src/) converts a
fixed-point selection probability into two positive integer weights, never
letting either weight be zero so that no branch becomes unreachable. -/
def float_to_weight (k : Nat) : Nat × Nat :=
  (max 1 (min k (weight_den - 1)), max 1 (weight_den - k))

/-- The data of a `MaybeOk`/`MaybeErr` strategy as built in src/result.rs: a
two-branch weighted union, branch 0 first. Values are `Except e a` with
`Except.ok` playing `Ok` and `Except.error` playing `Err`. Branch states
keep the delegate candidate state; each branch candidate protocol is the
delegate's wrapped through `mapVT`. -/
structure MaybeResultModel (σ0 σ1 ev av : Type) where
  weight0 : Nat
  weight1 : Nat
  branch0 : RawVT σ0 (Except ev av)
  branch1 : RawVT σ1 (Except ev av)

/-- Embedding of `maybe_ok_weighted` (src/result.rs:139-148): weights come
from `float_to_weight probability_of_ok` as `(ok_weight, err_weight)`; the
union places the `Err`-wrapped `e` strategy at index 0 and the `Ok`-wrapped
`t` strategy at index 1. -/
def maybe_ok_weighted (k : Nat) (tvt : RawVT σT av) (evt : RawVT σE ev) :
    MaybeResultModel σE σT ev av :=
  { weight0 := (float_to_weight k).2,
    weight1 := (float_to_weight k).1,
    branch0 := mapVT evt Except.error,
    branch1 := mapVT tvt Except.ok }

/-- Embedding of `maybe_ok` (src/result.rs:128-130): equal to
`maybe_ok_weighted` at probability 0.5 (fixed-point numerator
`weight_den / 2`). -/
def maybe_ok (tvt : RawVT σT av) (evt : RawVT σE ev) :
    MaybeResultModel σE σT ev av :=
  maybe_ok_weighted (weight_den / 2) tvt evt

/-- Embedding of `maybe_err_weighted` (src/result.rs:167-176): weights come
from `float_to_weight probability_of_err` as `(err_weight, ok_weight)`; the
union places the `Ok`-wrapped `t` strategy at index 0 and the `Err`-wrapped
`e` strategy at index 1. -/
def maybe_err_weighted (k : Nat) (tvt : RawVT σT av) (evt : RawVT σE ev) :
    MaybeResultModel σT σE ev av :=
  { weight0 := (float_to_weight k).2,
    weight1 := (float_to_weight k).1,
    branch0 := mapVT tvt Except.ok,
    branch1 := mapVT evt Except.error }

/-- Embedding of `maybe_err` (src/result.rs:156-158): equal to
`maybe_err_weighted` at probability 0.5 (fixed-point numerator
`weight_den / 2`). -/
def maybe_err (tvt : RawVT σT av) (evt : RawVT σE ev) :
    MaybeResultModel σT σE ev av :=
  maybe_err_weighted (weight_den / 2) tvt evt

/-- Tests whether an `Except` value is on the `ok` side. -/
def isOkE : Except ev av → Bool
  | .ok _ => true
  | .error _ => false

/-- Regex syntax tree restricted to the arms of `bytes_regex_parsed`
(src/string.rs:95-117) that the claims exercise: the empty expression and
the case-sensitive literal arms (`casei: false`). -/
inductive RegexExpr where
  | emptyRe
  | literalCS (chars : List Char)
  | literalBytesCS (bytes : List Nat)
deriving DecidableEq, Repr

/-- Strategy produced by the embedded `bytes_regex_parsed` arms: the
restricted arms all produce `Just(v)` for a fixed byte string `v`. -/
inductive BytesStrategy where
  | just (value : List Nat)
deriving DecidableEq, Repr

/-- UTF-8 encoding of one char, mirroring Rust `String::into_bytes` on the
collected chars. -/
def utf8EncodeChar (c : Char) : List Nat :=
  let n := c.toNat
  if n < 0x80 then [n]
  else if n < 0x800 then
    [0xC0 ||| (n >>> 6), 0x80 ||| (n &&& 0x3F)]
  else if n < 0x10000 then
    [0xE0 ||| (n >>> 12), 0x80 ||| ((n >>> 6) &&& 0x3F), 0x80 ||| (n &&& 0x3F)]
  else
    [0xF0 ||| (n >>> 18), 0x80 ||| ((n >>> 12) &&& 0x3F),
     0x80 ||| ((n >>> 6) &&& 0x3F), 0x80 ||| (n &&& 0x3F)]

/-- UTF-8 encoding of a char sequence
(`chars.iter().collect::<String>().into_bytes()`). -/
def utf8Encode (cs : List Char) : List Nat :=
  (cs.map utf8EncodeChar).flatten

/-- Embedding of the `Empty`, `Literal{casei: false}` and
`LiteralBytes{casei: false}` arms of `bytes_regex_parsed`
(src/string.rs:99-103,116-117): each produces a `Just` of the fixed byte
string; the literal arm collects the chars into a string and takes its
bytes. -/
def bytes_regex_parsed : RegexExpr → Except Unit BytesStrategy
  | .emptyRe => .ok (.just [])
  | .literalCS chars => .ok (.just (utf8Encode chars))
  | .literalBytesCS bytes => .ok (.just bytes)

/-- Modelled from the spec: `Just` (not under src/) is the constant-value
leaf strategy; its draw consumes no randomness and always yields the
captured value. -/
def BytesStrategy.new_value : BytesStrategy → TestRunner →
    Option (List Nat) × TestRunner
  | .just v, r => (some v, r)

/-- Modelled from the spec: the candidate of a `Just` strategy exposes the
captured value and can neither simplify nor complicate. -/
def just_vt : RawVT (List Nat) (List Nat) :=
  { current := fun s => s,
    simplify := fun s => (false, s),
    complicate := fun s => (false, s) }

/-- Run a sequence of raw protocol calls (`true` = simplify, `false` =
complicate) on a candidate state, returning the final state. -/
def runRaw (vt : RawVT σ α) : List Bool → σ → σ
  | [], s => s
  | c :: cs, s =>
    runRaw vt cs (if c then (vt.simplify s).2 else (vt.complicate s).2)

/-- View of an `ensure_acceptable` outcome as a `Filter` protocol-step
outcome (a completed repair is a successful step). -/
def liftEnsure : EnsureRes σ → FRes σ
  | .done s => .step true s
  | .fatal => .fatal
  | .fuelOut => .fuelOut

/-- Concrete candidate over `Nat`: the value is the state, simplify steps
down towards 0 and complicate steps up. -/
def vtNat : RawVT Nat Nat :=
  { current := fun n => n,
    simplify := fun n => match n with | 0 => (false, 0) | m + 1 => (true, m),
    complicate := fun n => (true, n + 1) }

/-- Concrete candidate over `Nat` that can neither simplify nor
complicate. -/
def vtFrozen : RawVT Nat Nat :=
  { current := fun n => n,
    simplify := fun n => (false, n),
    complicate := fun n => (false, n) }

/-- Concrete predicate: accept even values. -/
def pEven : Nat → Bool := fun n => n % 2 == 0

/-- Concrete predicate: accept only 0. -/
def pZero : Nat → Bool := fun n => n == 0

/-- Concrete source draw stream: every draw yields 4. -/
def draws1 : Nat → Option Nat := fun _ => some 4

/-- Concrete source draw stream: the i-th draw yields the odd value
2*i + 1. -/
def drawsOdd : Nat → Option Nat := fun i => some (2 * i + 1)

/-- Concrete run configuration for the flatten scenarios. -/
def cfgW : Config := { cases := 5, max_local_rejects := 10,
                       max_flat_map_regens := 100 }

/-- Concrete initial run context for the flatten scenarios. -/
def rW : TestRunner := { config := cfgW, flat_map_regens := 0, rngPos := 0 }

/-- Concrete strategy family: the strategy selected by meta value `m` draws
the fresh value `100 * m + 10 + rngPos`, so every draw under a fixed meta
value is brand new. -/
def sFresh (m : Nat) : MStrategy Nat :=
  { new_value := fun r =>
      (some (100 * m + 10 + r.rngPos), { r with rngPos := r.rngPos + 1 }) }

/-- Concrete strategy whose draws always fail. -/
def sFailS : MStrategy Nat :=
  { new_value := fun r => (none, r) }

/-- Concrete meta candidate: value `m` selects `sFresh m`; simplify steps
the meta value down towards 0; complicate always fails. -/
def mvtFresh : RawVT Nat (MStrategy Nat) :=
  { current := fun m => sFresh m,
    simplify := fun m => match m with | 0 => (false, 0) | k + 1 => (true, k),
    complicate := fun m => (false, m) }

/-- Concrete meta candidate whose simplified meta value selects a strategy
that cannot draw: value 0 selects the failing strategy, other values select
`sFresh`. -/
def mvtToFail : RawVT Nat (MStrategy Nat) :=
  { current := fun m => match m with | 0 => sFailS | _ => sFresh m,
    simplify := fun m => match m with | 0 => (false, 0) | k + 1 => (true, k),
    complicate := fun m => (false, m) }

/-- Concrete meta candidate whose complicated meta value selects a strategy
that cannot draw: complicate steps the meta value down towards 0 and value 0
selects the failing strategy. -/
def mvtC4 : RawVT Nat (MStrategy Nat) :=
  { current := fun m => match m with | 0 => sFailS | _ => sFresh m,
    simplify := fun m => (false, m),
    complicate := fun m => match m with | 0 => (false, 0) | k + 1 => (true, k) }

/-- The flatten candidate `fvtNew mvtFresh rW 1` produces. -/
def t0C2 : FlattenValueTree Nat Nat :=
  { meta := 1, current := 110, final_complication := none,
    runner := { config := cfgW, flat_map_regens := 0, rngPos := 1 },
    complicate_regen_remaining := 0 }

/-- The state after one meta-level simplify of `t0C2`: the fresh inner value
11 was drawn from `sFresh 0`, the old inner candidate is saved for final
complication, and the regeneration counter is the configured `cases`. -/
def t1C2 : FlattenValueTree Nat Nat :=
  { meta := 0, current := 11, final_complication := some 110,
    runner := { config := cfgW, flat_map_regens := 0, rngPos := 2 },
    complicate_regen_remaining := 5 }

/-- The flatten candidate `fvtNew mvtToFail rW 1` produces. -/
def t0C3 : FlattenValueTree Nat Nat :=
  { meta := 1, current := 110, final_complication := none,
    runner := { config := cfgW, flat_map_regens := 0, rngPos := 1 },
    complicate_regen_remaining := 0 }

/-- The flatten candidate `fvtNew mvtC4 rW 1` produces. -/
def t0C4 : FlattenValueTree Nat Nat :=
  { meta := 1, current := 110, final_complication := none,
    runner := { config := cfgW, flat_map_regens := 0, rngPos := 1 },
    complicate_regen_remaining := 0 }

/-- Concrete flatten candidate whose inner candidate (over `vtNat`) can
still simplify in place; the stale regeneration counter 77 checks that
simplify zeroes it. -/
def tC10 : FlattenValueTree Nat Nat :=
  { meta := 1, current := 5, final_complication := none,
    runner := rW, complicate_regen_remaining := 77 }

/-- Concrete flatten candidate with a positive regeneration counter but an
exhausted global regeneration budget (`max_flat_map_regens = 0`). -/
def tC4w : FlattenValueTree Nat Nat :=
  { meta := 1, current := 3, final_complication := none,
    runner := { config := { cases := 5, max_local_rejects := 10,
                            max_flat_map_regens := 0 },
                flat_map_regens := 0, rngPos := 0 },
    complicate_regen_remaining := 2 }

/-- A completed `ensure_acceptable` repair always lands on a value the
predicate accepts. -/
theorem ensure_done_sat (vt : RawVT σ α) (p : α → Bool) :
    ∀ fuel s s2, ensure_acceptable vt p fuel s = .done s2 →
      p (vt.current s2) = true := by
  intro fuel
  induction fuel with
  | zero =>
    intro s s2 h
    simp only [ensure_acceptable] at h
    split at h
    · cases h; assumption
    · cases h
  | succ n ih =>
    intro s s2 h
    simp only [ensure_acceptable] at h
    split at h
    · cases h; assumption
    · rcases hc : vt.complicate s with ⟨b, s3⟩
      rw [hc] at h
      cases b
      · cases h
      · exact ih s3 s2 h

/-- A successful `Filter::new_value` draw satisfies the predicate. -/
theorem filterNewValue_ok_sat (vt : RawVT σ α) (p : α → Bool)
    (draws : Nat → Option σ) :
    ∀ b i s, filterNewValue vt p draws b i = .ok s →
      p (vt.current s) = true := by
  intro b
  induction b with
  | zero =>
    intro i s h
    simp only [filterNewValue] at h
    cases hd : draws i with
    | none => rw [hd] at h; cases h
    | some v =>
      rw [hd] at h
      by_cases hp : p (vt.current v) = true
      · simp only [hp, if_true] at h
        cases h; assumption
      · simp only [Bool.not_eq_true] at hp
        simp [hp] at h
  | succ n ih =>
    intro i s h
    simp only [filterNewValue] at h
    cases hd : draws i with
    | none => rw [hd] at h; cases h
    | some v =>
      rw [hd] at h
      by_cases hp : p (vt.current v) = true
      · simp only [hp, if_true] at h
        cases h; assumption
      · simp only [Bool.not_eq_true] at hp
        simp only [hp, Bool.false_eq_true, if_false] at h
        exact ih (i + 1) s h

/-- Claim C5: `Filter::new_value` loops drawing candidates from the source
until one satisfies the predicate (an accepted draw is returned as drawn; a
rejected draw hands control to the next iteration one budget unit down);
each failing draw consumes one unit of the local reject budget via
`reject_local`, and a failing draw with the budget exhausted returns the
too-many-rejects error instead of looping forever; moreover any successful
result satisfies the predicate. -/
theorem filter_new_value_rejection_sampling (vt : RawVT σ α) (p : α → Bool)
    (draws : Nat → Option σ) :
    (∀ b i s, draws i = some s → p (vt.current s) = true →
       filterNewValue vt p draws b i = .ok s) ∧
    (∀ b i s, draws i = some s → p (vt.current s) = false →
       filterNewValue vt p draws (b + 1) i =
         filterNewValue vt p draws b (i + 1)) ∧
    (∀ i s, draws i = some s → p (vt.current s) = false →
       filterNewValue vt p draws 0 i = .tooManyRejects) ∧
    (∀ b i s, filterNewValue vt p draws b i = .ok s →
       p (vt.current s) = true) := by
  refine ⟨?_, ?_, ?_, filterNewValue_ok_sat vt p draws⟩
  · intro b i s h1 h2
    cases b <;> · rw [filterNewValue, h1]; simp [h2]
  · intro b i s h1 h2
    rw [filterNewValue, h1]
    simp [h2]
  · intro i s h1 h2
    rw [filterNewValue, h1]
    simp [h2]

/-- Witness for C5: with a source stream of odd values and the evenness
predicate, a zero reject budget makes the draw fail with the
too-many-rejects error. -/
theorem filter_new_value_rejection_sampling_w :
    filterNewValue vtNat pEven drawsOdd 0 0 = .tooManyRejects :=
  (filter_new_value_rejection_sampling vtNat pEven drawsOdd).2.2.1 0 1
    rfl rfl

/-- One `Filter` simplify call that completes as a protocol step preserves
the predicate, given that a source simplify reporting failure leaves the
current value unchanged. -/
theorem filter_simplify_preserve (vt : RawVT σ α) (p : α → Bool)
    (hs : ∀ s s2, vt.simplify s = (false, s2) →
       vt.current s2 = vt.current s) :
    ∀ fuel s b s2, p (vt.current s) = true →
      filter_simplify vt p fuel s = .step b s2 →
      p (vt.current s2) = true := by
  intro fuel s b s2 hp h
  rw [filter_simplify] at h
  split at h
  next s3 hv =>
    split at h
    next s4 he =>
      injection h with h1 h2
      subst h2
      exact ensure_done_sat vt p fuel s3 s4 he
    next he => simp at h
    next he => simp at h
  next s3 hv =>
    injection h with h1 h2
    subst h2
    rw [hs s s3 hv]
    exact hp

/-- One `Filter` complicate call that completes as a protocol step preserves
the predicate, given that a source complicate reporting failure leaves the
current value unchanged. -/
theorem filter_complicate_preserve (vt : RawVT σ α) (p : α → Bool)
    (hc : ∀ s s2, vt.complicate s = (false, s2) →
       vt.current s2 = vt.current s) :
    ∀ fuel s b s2, p (vt.current s) = true →
      filter_complicate vt p fuel s = .step b s2 →
      p (vt.current s2) = true := by
  intro fuel s b s2 hp h
  rw [filter_complicate] at h
  split at h
  next s3 hv =>
    split at h
    next s4 he =>
      injection h with h1 h2
      subst h2
      exact ensure_done_sat vt p fuel s3 s4 he
    next he => simp at h
    next he => simp at h
  next s3 hv =>
    injection h with h1 h2
    subst h2
    rw [hc s s3 hv]
    exact hp

/-- Every state a run of `Filter` calls exposes satisfies the predicate,
provided the initial state does and the source obeys the protocol (a failed
step leaves the current value unchanged). -/
theorem runFilterCalls_sat (vt : RawVT σ α) (p : α → Bool) (fuel : Nat)
    (hs : ∀ s s2, vt.simplify s = (false, s2) →
       vt.current s2 = vt.current s)
    (hc : ∀ s s2, vt.complicate s = (false, s2) →
       vt.current s2 = vt.current s) :
    ∀ ops s0, p (vt.current s0) = true →
      ∀ s2 ∈ runFilterCalls vt p fuel ops s0,
        p (vt.current s2) = true := by
  intro ops
  induction ops with
  | nil =>
    intro s0 _ s2 h2
    simp [runFilterCalls] at h2
  | cons c cs ih =>
    intro s0 hp s2 h2
    cases c
    all_goals simp only [runFilterCalls] at h2
    · cases hres : filter_complicate vt p fuel s0 with
      | step b s3 =>
        simp only [hres] at h2
        have hp3 := filter_complicate_preserve vt p hc fuel s0 b s3 hp hres
        rcases List.mem_cons.mp h2 with rfl | h2
        · exact hp3
        · exact ih s3 hp3 s2 h2
      | fatal => simp only [hres] at h2; simp at h2
      | fuelOut => simp only [hres] at h2; simp at h2
    · cases hres : filter_simplify vt p fuel s0 with
      | step b s3 =>
        simp only [hres] at h2
        have hp3 := filter_simplify_preserve vt p hs fuel s0 b s3 hp hres
        rcases List.mem_cons.mp h2 with rfl | h2
        · exact hp3
        · exact ih s3 hp3 s2 h2
      | fatal => simp only [hres] at h2; simp at h2
      | fuelOut => simp only [hres] at h2; simp at h2

/-- Claim C1: for every `Filter` candidate returned by `Filter::new_value`
over a protocol-obeying source (a source step that reports failure leaves
the current value unchanged, per the `ValueTree` contract), and for every
sequence of simplify and complicate calls on it, every value returned by
`current()` satisfies the filter's predicate. -/
theorem filter_safety (vt : RawVT σ α) (p : α → Bool)
    (draws : Nat → Option σ) (budget i0 fuel : Nat) (s0 : σ)
    (ops : List Bool)
    (hs : ∀ s s2, vt.simplify s = (false, s2) →
       vt.current s2 = vt.current s)
    (hc : ∀ s s2, vt.complicate s = (false, s2) →
       vt.current s2 = vt.current s)
    (hnv : filterNewValue vt p draws budget i0 = .ok s0) :
    p (vt.current s0) = true ∧
    ∀ s2 ∈ runFilterCalls vt p fuel ops s0,
      p (vt.current s2) = true := by
  have h0 := filterNewValue_ok_sat vt p draws budget i0 s0 hnv
  exact ⟨h0, runFilterCalls_sat vt p fuel hs hc ops s0 h0⟩

/-- Witness for C1: the concrete even-value filter over the step-down
candidate, started from the accepted draw 4, keeps every exposed value even
across the call sequence simplify, simplify, complicate. -/
theorem filter_safety_w :
    pEven (vtNat.current 4) = true ∧
    ∀ s2 ∈ runFilterCalls vtNat pEven 5 [true, true, false] 4,
      pEven (vtNat.current s2) = true :=
  filter_safety vtNat pEven draws1 3 0 5 4 [true, true, false]
    (by
      intro s s2 h
      cases s with
      | zero =>
        injection (show ((false, 0) : Bool × Nat) = (false, s2) from h)
          with h1 h2
        subst h2; rfl
      | succ m =>
        exact Bool.noConfusion
          (congrArg Prod.fst
            (show ((true, m) : Bool × Nat) = (false, s2) from h)))
    (by
      intro s s2 h
      exact Bool.noConfusion
        (congrArg Prod.fst
          (show ((true, s + 1) : Bool × Nat) = (false, s2) from h)))
    (by decide)

/-- A completed `ensure_acceptable` repair reaches its result purely by
iterating the source `complicate`: the result is `compIter n` of the start
for some `n`, every strictly earlier iterate failed the predicate and had a
successful `complicate`, and the result satisfies the predicate. -/
theorem ensure_done_is_compIter (vt : RawVT σ α) (p : α → Bool) :
    ∀ fuel s s2, ensure_acceptable vt p fuel s = .done s2 →
      ∃ n, s2 = compIter vt n s ∧ p (vt.current s2) = true ∧
        ∀ m < n, p (vt.current (compIter vt m s)) = false ∧
                 (vt.complicate (compIter vt m s)).1 = true := by
  intro fuel
  induction fuel with
  | zero =>
    intro s s2 h
    simp only [ensure_acceptable] at h
    split at h
    next hp =>
      injection h with h1
      subst h1
      exact ⟨0, rfl, hp, by omega⟩
    next hp => simp at h
  | succ n ih =>
    intro s s2 h
    simp only [ensure_acceptable] at h
    split at h
    next hp =>
      injection h with h1
      subst h1
      exact ⟨0, rfl, hp, by omega⟩
    next hp =>
      have hp2 : p (vt.current s) = false := by
        cases hb : p (vt.current s)
        · rfl
        · exact absurd hb hp
      split at h
      next s3 hc3 =>
        rcases ih s3 s2 h with ⟨k, hk, hpk, hall⟩
        refine ⟨k + 1, ?_, hpk, ?_⟩
        · rw [compIter, hc3]
          exact hk
        · intro m hm
          cases m with
          | zero =>
            refine ⟨hp2, ?_⟩
            show (vt.complicate s).1 = true
            rw [hc3]
          | succ j =>
            have hj : j < k := by omega
            have hstep : compIter vt (j + 1) s = compIter vt j s3 := by
              rw [compIter, hc3]
            rw [hstep]
            exact hall j hj
      next hc3 => simp at h

/-- A state whose value fails the predicate and whose source cannot
complicate makes `ensure_acceptable` fatal (the panic). -/
theorem ensure_stuck_fatal (vt : RawVT σ α) (p : α → Bool) :
    ∀ fuel s, p (vt.current s) = false → (vt.complicate s).1 = false →
      ensure_acceptable vt p (fuel + 1) s = .fatal := by
  intro fuel s hp hc
  rcases hv : vt.complicate s with ⟨bb, s3⟩
  rw [hv] at hc
  simp at hc
  subst hc
  simp [ensure_acceptable, hp, hv]

/-- Claim C6: after `Filter`'s simplify or complicate delegates to the
source candidate, the repair step is exactly `ensure_acceptable`, which
reaches any repaired state purely by iterating the source `complicate`
while the current value fails the predicate (it never calls `simplify`);
and when the source cannot complicate further while the value is still
unacceptable the repair is fatal (the panic), not a retry and not a normal
return. -/
theorem filter_repair_complicates_or_fatal (vt : RawVT σ α) (p : α → Bool) :
    (∀ fuel s s2, ensure_acceptable vt p fuel s = .done s2 →
       ∃ n, s2 = compIter vt n s ∧ p (vt.current s2) = true ∧
         ∀ m < n, p (vt.current (compIter vt m s)) = false ∧
                  (vt.complicate (compIter vt m s)).1 = true) ∧
    (∀ fuel s, p (vt.current s) = false → (vt.complicate s).1 = false →
       ensure_acceptable vt p (fuel + 1) s = .fatal) ∧
    (∀ fuel s s2, vt.simplify s = (true, s2) →
       filter_simplify vt p fuel s =
         liftEnsure (ensure_acceptable vt p fuel s2)) ∧
    (∀ fuel s s2, vt.complicate s = (true, s2) →
       filter_complicate vt p fuel s =
         liftEnsure (ensure_acceptable vt p fuel s2)) := by
  refine ⟨ensure_done_is_compIter vt p, ensure_stuck_fatal vt p, ?_, ?_⟩
  · intro fuel s s2 h
    rw [filter_simplify, h]
    cases he : ensure_acceptable vt p fuel s2 <;> simp [liftEnsure, he]
  · intro fuel s s2 h
    rw [filter_complicate, h]
    cases he : ensure_acceptable vt p fuel s2 <;> simp [liftEnsure, he]

/-- Witness for C6: the frozen candidate at value 1 fails the accept-only-0
predicate and cannot complicate, so the repair is fatal. -/
theorem filter_repair_complicates_or_fatal_w :
    ensure_acceptable vtFrozen pZero 4 1 = .fatal :=
  (filter_repair_complicates_or_fatal vtFrozen pZero).2.1 3 1 rfl rfl

/-- Claim C3 (amended): `FlattenValueTree::simplify` zeroes the regeneration
counter, then tries the inner candidate in place (success returns true);
otherwise it tries the meta candidate: on meta success it draws a brand-new
inner candidate from the new meta value and, when the draw succeeds, saves
the previous inner candidate as the final-complication fallback, resets the
regeneration counter to the configured `cases` value and returns true; it
returns false when the meta cannot simplify, and also — the amendment —
when the meta simplified but the draw from the new meta value failed. -/
theorem flatten_simplify_order (mvt : RawVT M (MStrategy C))
    (cvt : RawVT C α) (t : FlattenValueTree M C) :
    (∀ c2, cvt.simplify t.current = (true, c2) →
       fvtSimplify mvt cvt t =
         (true, { t with
                    complicate_regen_remaining := 0
                    current := c2 })) ∧
    (∀ c2 m2, cvt.simplify t.current = (false, c2) →
       mvt.simplify t.meta = (false, m2) →
       fvtSimplify mvt cvt t =
         (false, { t with
                     complicate_regen_remaining := 0
                     current := c2
                     meta := m2 })) ∧
    (∀ c2 m2 v r2, cvt.simplify t.current = (false, c2) →
       mvt.simplify t.meta = (true, m2) →
       (mvt.current m2).new_value t.runner = (some v, r2) →
       fvtSimplify mvt cvt t =
         (true, { t with
                    complicate_regen_remaining := r2.config.cases
                    current := v
                    meta := m2
                    final_complication := some c2
                    runner := r2 })) ∧
    (∀ c2 m2 r2, cvt.simplify t.current = (false, c2) →
       mvt.simplify t.meta = (true, m2) →
       (mvt.current m2).new_value t.runner = (none, r2) →
       fvtSimplify mvt cvt t =
         (false, { t with
                     complicate_regen_remaining := 0
                     current := c2
                     meta := m2
                     runner := r2 })) := by
  refine ⟨?_, ?_, ?_, ?_⟩ <;> intros <;> simp [fvtSimplify, *]

/-- Witness for C3 (amended): on the concrete candidate whose inner value 5
can simplify in place, simplify zeroes the counter and steps the inner
value to 4. -/
theorem flatten_simplify_order_w :
    fvtSimplify mvtFresh vtNat tC10 =
      (true, { tC10 with complicate_regen_remaining := 0, current := 4 }) :=
  (flatten_simplify_order mvtFresh vtNat tC10).1 4 rfl

/-- Counterexample for C3 as stated: in the concrete flatten candidate
produced by `fvtNew`, the inner candidate cannot simplify and the meta
candidate simplifies successfully, yet `simplify` returns false, because
drawing from the newly simplified meta value fails; the claim asserts a
successful meta simplify always yields true. -/
theorem flatten_simplify_meta_draw_failure_cx :
    (fvtNew mvtToFail rW 1).1 = some t0C3 ∧
    (vtFrozen.simplify t0C3.current).1 = false ∧
    (mvtToFail.simplify t0C3.meta).1 = true ∧
    (fvtSimplify mvtToFail vtFrozen t0C3).1 = false := by
  decide

/-- Claim C4 (amended): the staged behaviour of
`FlattenValueTree::complicate`: a positive regeneration counter with global
budget available decrements both and re-draws from the same meta value,
returning true on a successful draw and falling through on a failed one;
budget exhaustion zeroes the counter and falls through to the structural
path with no failure; the structural path tries the inner complicate, then
the meta complicate with a redraw (fresh counter on a successful draw; on a
failed draw — the amendment — the meta stays complicated and control falls
to the fallback), then restores a saved final complication, clearing the
slot, and otherwise returns false. -/
theorem flatten_complicate_order (mvt : RawVT M (MStrategy C))
    (cvt : RawVT C α) (t : FlattenValueTree M C) :
    (∀ r1 v r2, 0 < t.complicate_regen_remaining →
       t.runner.flat_map_regen = (true, r1) →
       (mvt.current t.meta).new_value r1 = (some v, r2) →
       fvtComplicate mvt cvt t =
         (true, { t with
                    complicate_regen_remaining :=
                      t.complicate_regen_remaining - 1
                    current := v
                    runner := r2 })) ∧
    (∀ r1 r2, 0 < t.complicate_regen_remaining →
       t.runner.flat_map_regen = (true, r1) →
       (mvt.current t.meta).new_value r1 = (none, r2) →
       fvtComplicate mvt cvt t =
         fvtComplicateRest mvt cvt
           { t with
               complicate_regen_remaining :=
                 t.complicate_regen_remaining - 1
               runner := r2 }) ∧
    (∀ r1, 0 < t.complicate_regen_remaining →
       t.runner.flat_map_regen = (false, r1) →
       fvtComplicate mvt cvt t =
         fvtComplicateRest mvt cvt
           { t with
               complicate_regen_remaining := 0
               runner := r1 }) ∧
    (t.complicate_regen_remaining = 0 →
       fvtComplicate mvt cvt t = fvtComplicateRest mvt cvt t) ∧
    (∀ c2, cvt.complicate t.current = (true, c2) →
       fvtComplicateRest mvt cvt t = (true, { t with current := c2 })) ∧
    (∀ c2 m2 v r2, cvt.complicate t.current = (false, c2) →
       mvt.complicate t.meta = (true, m2) →
       (mvt.current m2).new_value t.runner = (some v, r2) →
       fvtComplicateRest mvt cvt t =
         (true, { t with
                    complicate_regen_remaining := r2.config.cases
                    current := v
                    meta := m2
                    runner := r2 })) ∧
    (∀ c2 m2 r2 w, cvt.complicate t.current = (false, c2) →
       mvt.complicate t.meta = (true, m2) →
       (mvt.current m2).new_value t.runner = (none, r2) →
       t.final_complication = some w →
       fvtComplicateRest mvt cvt t =
         (true, { t with
                    current := w
                    meta := m2
                    runner := r2
                    final_complication := none })) ∧
    (∀ c2 m2 r2, cvt.complicate t.current = (false, c2) →
       mvt.complicate t.meta = (true, m2) →
       (mvt.current m2).new_value t.runner = (none, r2) →
       t.final_complication = none →
       fvtComplicateRest mvt cvt t =
         (false, { t with current := c2, meta := m2, runner := r2 })) ∧
    (∀ c2 m2 w, cvt.complicate t.current = (false, c2) →
       mvt.complicate t.meta = (false, m2) →
       t.final_complication = some w →
       fvtComplicateRest mvt cvt t =
         (true, { t with
                    current := w
                    meta := m2
                    final_complication := none })) ∧
    (∀ c2 m2, cvt.complicate t.current = (false, c2) →
       mvt.complicate t.meta = (false, m2) →
       t.final_complication = none →
       fvtComplicateRest mvt cvt t =
         (false, { t with current := c2, meta := m2 })) := by
  refine ⟨?_, ?_, ?_, ?_, ?_, ?_, ?_, ?_, ?_, ?_⟩ <;> intros <;>
    simp [fvtComplicate, fvtComplicateRest, *]

/-- Witness for C4 (amended): on the concrete candidate with counter 2 but
an exhausted global budget, complicate takes the structural path with the
counter zeroed — regeneration-budget exhaustion is not a failure. -/
theorem flatten_complicate_order_w :
    fvtComplicate mvtFresh vtFrozen tC4w =
      fvtComplicateRest mvtFresh vtFrozen
        { tC4w with
            complicate_regen_remaining := 0
            runner := tC4w.runner } :=
  (flatten_complicate_order mvtFresh vtFrozen tC4w).2.2.1 tC4w.runner
    (by decide) rfl

/-- Counterexample for C4 as stated: on the concrete candidate produced by
`fvtNew`, the inner candidate cannot complicate, the meta candidate
complicates successfully (it applies — the resulting meta moved), yet
`complicate` returns false because the redraw from the complicated meta
value fails and no fallback is saved; the claim asserts false is returned
only when none of the listed options apply. -/
theorem flatten_complicate_meta_moved_false_cx :
    (fvtNew mvtC4 rW 1).1 = some t0C4 ∧
    (vtFrozen.complicate t0C4.current).1 = false ∧
    (mvtC4.complicate t0C4.meta).1 = true ∧
    (fvtComplicate mvtC4 vtFrozen t0C4).1 = false ∧
    (fvtComplicate mvtC4 vtFrozen t0C4).2.meta ≠ t0C4.meta := by
  decide

/-- Claim C2 (amended): `FlattenValueTree::complicate`, when the
regeneration counter is positive, the global budget is available and the
re-draw succeeds, exposes a freshly drawn — possibly never previously
visited — inner value from the same, unchanged current meta value (the meta
candidate and the saved fallback are untouched); when no regeneration
applies and neither the inner nor the meta candidate can complicate, it
retraces by restoring the previously visited saved fallback value. -/
theorem flatten_complicate_regen_redraw (mvt : RawVT M (MStrategy C))
    (cvt : RawVT C α) (t : FlattenValueTree M C) :
    (∀ r1 v r2, 0 < t.complicate_regen_remaining →
       t.runner.flat_map_regen = (true, r1) →
       (mvt.current t.meta).new_value r1 = (some v, r2) →
       fvtComplicate mvt cvt t =
         (true, { t with
                    complicate_regen_remaining :=
                      t.complicate_regen_remaining - 1
                    current := v
                    runner := r2 })) ∧
    (∀ c2 m2 w, t.complicate_regen_remaining = 0 →
       cvt.complicate t.current = (false, c2) →
       mvt.complicate t.meta = (false, m2) →
       t.final_complication = some w →
       fvtComplicate mvt cvt t =
         (true, { t with
                    current := w
                    meta := m2
                    final_complication := none })) := by
  constructor <;> intros <;> simp [fvtComplicate, fvtComplicateRest, *]

/-- Witness for C2 (amended): on the concrete post-simplify candidate
`t1C2`, complicate re-draws the fresh value 12 from the same meta value 0,
leaving meta and fallback untouched. -/
theorem flatten_complicate_regen_redraw_w :
    fvtComplicate mvtFresh vtFrozen t1C2 =
      (true, { meta := 0, current := 12, final_complication := some 110,
               runner := { config := cfgW, flat_map_regens := 1,
                           rngPos := 3 },
               complicate_regen_remaining := 4 }) :=
  (flatten_complicate_regen_redraw mvtFresh vtFrozen t1C2).1
    { config := cfgW, flat_map_regens := 1, rngPos := 2 } 12
    { config := cfgW, flat_map_regens := 1, rngPos := 3 }
    (by decide) (by decide) (by decide)

/-- Counterexample for C2 as stated: a concrete flatten candidate produced
by `fvtNew` exposes 110, one simplify moves it to the freshly drawn 11, and
the following complicate exposes 12 — a value that was never visited
earlier on the shrink path (the only previously exposed values being 110
and 11). -/
theorem flatten_complicate_fresh_value_cx :
    (fvtNew mvtFresh rW 1).1 = some t0C2 ∧
    fvtCurrent vtFrozen t0C2 = 110 ∧
    fvtSimplify mvtFresh vtFrozen t0C2 = (true, t1C2) ∧
    fvtCurrent vtFrozen t1C2 = 11 ∧
    (fvtComplicate mvtFresh vtFrozen t1C2).1 = true ∧
    fvtCurrent vtFrozen (fvtComplicate mvtFresh vtFrozen t1C2).2 = 12 ∧
    (12 : Nat) ≠ 110 ∧ (12 : Nat) ≠ 11 := by
  decide

/-- Claim C10: `FlattenValueTree::simplify` zeroes the regeneration counter
before anything else (its behaviour is independent of the incoming
counter); after a simplify that succeeds by simplifying the inner candidate
in place the counter is 0, so the immediately following complicate performs
no regeneration re-draw — it goes straight to the structural path, and in
particular straight to complicating the inner candidate, touching neither
the runner nor the budgets. -/
theorem flatten_simplify_zeroes_regen (mvt : RawVT M (MStrategy C))
    (cvt : RawVT C α) (t : FlattenValueTree M C) :
    (∀ k, fvtSimplify mvt cvt
        { t with complicate_regen_remaining := k } =
      fvtSimplify mvt cvt t) ∧
    (∀ c2, cvt.simplify t.current = (true, c2) →
       (fvtSimplify mvt cvt t).2.complicate_regen_remaining = 0 ∧
       fvtComplicate mvt cvt (fvtSimplify mvt cvt t).2 =
         fvtComplicateRest mvt cvt (fvtSimplify mvt cvt t).2 ∧
       (∀ c3, cvt.complicate c2 = (true, c3) →
          fvtComplicate mvt cvt (fvtSimplify mvt cvt t).2 =
            (true, { t with
                       complicate_regen_remaining := 0
                       current := c3 }))) := by
  constructor
  · intro k
    rfl
  · intro c2 h
    have hs : fvtSimplify mvt cvt t =
        (true, { t with
                   complicate_regen_remaining := 0
                   current := c2 }) := by
      simp [fvtSimplify, h]
    rw [hs]
    refine ⟨rfl, ?_, ?_⟩
    · simp [fvtComplicate]
    · intro c3 h3
      simp [fvtComplicate, fvtComplicateRest, h3]

/-- Witness for C10: on the concrete candidate with stale counter 77 whose
inner value 5 simplifies in place, the post-simplify counter is 0 and the
following complicate immediately complicates the inner value back to 5. -/
theorem flatten_simplify_zeroes_regen_w :
    (fvtSimplify mvtFresh vtNat tC10).2.complicate_regen_remaining = 0 ∧
    fvtComplicate mvtFresh vtNat (fvtSimplify mvtFresh vtNat tC10).2 =
      (true, { tC10 with
                 complicate_regen_remaining := 0
                 current := 5 }) := by
  have h := (flatten_simplify_zeroes_regen mvtFresh vtNat tC10).2 4 rfl
  exact ⟨h.1, h.2.2 5 rfl⟩

/-- Claim C7: `maybe_ok_weighted` places the `Err` branch at union index 0
and the `Ok` branch at index 1, while `maybe_err_weighted` places the `Ok`
branch at index 0 and the `Err` branch at index 1; consequently a maybe-ok
candidate currently exposing an `Ok` value simplifies (successfully) to an
`Err` value, and a maybe-err candidate currently exposing an `Err` value
simplifies to an `Ok` value — each the mirror image of the other. -/
theorem maybe_result_shrink_direction (k : Nat)
    (tvt : RawVT σT av) (evt : RawVT σE ev) :
    (∀ sE, (maybe_ok_weighted k tvt evt).branch0.current sE =
       Except.error (evt.current sE)) ∧
    (∀ sT, (maybe_ok_weighted k tvt evt).branch1.current sT =
       Except.ok (tvt.current sT)) ∧
    (∀ sT, (maybe_err_weighted k tvt evt).branch0.current sT =
       Except.ok (tvt.current sT)) ∧
    (∀ sE, (maybe_err_weighted k tvt evt).branch1.current sE =
       Except.error (evt.current sE)) ∧
    (∀ (u : UnionVT2 σE σT) a,
       union_current (maybe_ok_weighted k tvt evt).branch0
         (maybe_ok_weighted k tvt evt).branch1 u = .ok a →
       (union_simplify (maybe_ok_weighted k tvt evt).branch0 u).1 = true ∧
       ∃ e, union_current (maybe_ok_weighted k tvt evt).branch0
         (maybe_ok_weighted k tvt evt).branch1
         (union_simplify (maybe_ok_weighted k tvt evt).branch0 u).2 =
           .error e) ∧
    (∀ (u : UnionVT2 σT σE) e,
       union_current (maybe_err_weighted k tvt evt).branch0
         (maybe_err_weighted k tvt evt).branch1 u = .error e →
       (union_simplify (maybe_err_weighted k tvt evt).branch0 u).1 = true ∧
       ∃ a, union_current (maybe_err_weighted k tvt evt).branch0
         (maybe_err_weighted k tvt evt).branch1
         (union_simplify (maybe_err_weighted k tvt evt).branch0 u).2 =
           .ok a) := by
  refine ⟨fun sE => rfl, fun sT => rfl, fun sT => rfl, fun sE => rfl,
          ?_, ?_⟩
  · intro u a h
    cases u with
    | firstOnly s0 =>
      simp [union_current, maybe_ok_weighted, mapVT] at h
    | both s0 s1 onF w =>
      cases onF
      · exact ⟨rfl, ⟨evt.current s0, rfl⟩⟩
      · simp [union_current, maybe_ok_weighted, mapVT] at h
  · intro u e h
    cases u with
    | firstOnly s0 =>
      simp [union_current, maybe_err_weighted, mapVT] at h
    | both s0 s1 onF w =>
      cases onF
      · exact ⟨rfl, ⟨tvt.current s0, rfl⟩⟩
      · simp [union_current, maybe_err_weighted, mapVT] at h

/-- Witness for C7: a concrete maybe-ok candidate on the `Ok` branch
(exposing `Ok 4`) simplifies successfully, and the resulting current value
is an `Err` value. -/
theorem maybe_result_shrink_direction_w :
    (union_simplify (maybe_ok_weighted 32768 vtNat vtNat).branch0
       (UnionVT2.both 3 4 false false)).1 = true ∧
    ∃ e, union_current (maybe_ok_weighted 32768 vtNat vtNat).branch0
      (maybe_ok_weighted 32768 vtNat vtNat).branch1
      (union_simplify (maybe_ok_weighted 32768 vtNat vtNat).branch0
         (UnionVT2.both 3 4 false false)).2 = .error e :=
  (maybe_result_shrink_direction 32768 vtNat vtNat).2.2.2.2.1
    (UnionVT2.both 3 4 false false) 4 rfl

/-- Claim C8: `float_to_weight` always yields two positive weights (neither
is ever zero); the unweighted constructors `maybe_ok` and `maybe_err` equal
their weighted counterparts at selection probability 0.5 (fixed-point
numerator `weight_den / 2`), and at that probability the two weights are
equal. -/
theorem maybe_result_weights (tvt : RawVT σT av) (evt : RawVT σE ev) :
    (∀ k, 0 < (float_to_weight k).1 ∧ 0 < (float_to_weight k).2) ∧
    maybe_ok tvt evt = maybe_ok_weighted (weight_den / 2) tvt evt ∧
    maybe_err tvt evt = maybe_err_weighted (weight_den / 2) tvt evt ∧
    (float_to_weight (weight_den / 2)).1 =
      (float_to_weight (weight_den / 2)).2 := by
  refine ⟨?_, rfl, rfl, by decide⟩
  intro k
  exact ⟨Nat.lt_of_lt_of_le Nat.zero_lt_one (Nat.le_max_left _ _),
         Nat.lt_of_lt_of_le Nat.zero_lt_one (Nat.le_max_left _ _)⟩

/-- Runs of protocol calls on a `Just` candidate never change the state. -/
theorem runRaw_just : ∀ ops s, runRaw just_vt ops s = s := by
  intro ops
  induction ops with
  | nil => intro s; rfl
  | cons c cs ih =>
    intro s
    cases c <;> simpa [runRaw, just_vt] using ih s

/-- Claim C9: the case-sensitive literal regex arm compiles to the `Just`
strategy of exactly the literal's bytes, whose generation always produces
that exact byte string (consuming no randomness), and on whose candidate
simplify makes no change — the reachable value set under any call sequence
is the single element. -/
theorem regex_literal_singleton (cs : List Char) :
    bytes_regex_parsed (.literalCS cs) = .ok (.just (utf8Encode cs)) ∧
    (∀ r, (BytesStrategy.just (utf8Encode cs)).new_value r =
       (some (utf8Encode cs), r)) ∧
    (∀ ops, runRaw just_vt ops (utf8Encode cs) = utf8Encode cs) ∧
    just_vt.simplify (utf8Encode cs) = (false, utf8Encode cs) :=
  ⟨rfl, fun _ => rfl, fun ops => runRaw_just ops _, rfl⟩

end Proptest
